import Mathlib

/-!
# capturedcheckpoints-go: race handlers

A shallow embedding of `cmd/server/main.go` and `cmd/server/model.go`.

* Go values of type `[]string` are `GoSlice` (nil, or a sequence of strings).
* The mgo collection `races` is an external collaborator.  The handlers are
  written against an interface `Collection σ` (the three calls the handlers
  make: `Find(..).One`, `Upsert`, `Remove`), with the state of the store
  passed explicitly.  `memColl` is the keyed-document store of the
  specification, §4.1, with injectable failures.
* A handler returns the store after the request and the response it wrote.
-/

set_option linter.dupNamespace false

namespace CapturedCheckpoints

/-! ## Data model (`model.go`) -/

/-- A Go value of type `[]string`: the nil slice, or a (possibly empty) sequence. -/
inductive GoSlice where
  | nil
  | mk (elems : List String)
deriving DecidableEq, Repr

/-- The elements ranged over by `for _, ele := range slice`. -/
def GoSlice.toList : GoSlice → List String
  | .nil => []
  | .mk elems => elems

/-- The struct `CapturedCheckpoint` of `model.go`. -/
structure CapturedCheckpoint where
  CapturedCheckpoint : String
deriving DecidableEq, Repr

/-- The struct `Race` of `model.go`. -/
structure Race where
  ID : String
  CapturedCheckpoints : GoSlice
deriving DecidableEq, Repr

/-- The function `NewRace` of `model.go`: the given id and `[]string{}`. -/
def NewRace (ID : String) : Race :=
  { ID := ID, CapturedCheckpoints := .mk [] }

/-- The zero value of `Race`, the content of `var race Race`. -/
def Race.zero : Race :=
  { ID := "", CapturedCheckpoints := .nil }

/-! ## `appendIfMissing` (`main.go`, lines 260-267) -/

/-- The `for _, ele := range slice` loop of `appendIfMissing` over the elements
still to visit: `return slice` at the first element equal to `i`, and
`return append(slice, i)` when the loop ends. -/
def appendIfMissing.loop (slice : GoSlice) (i : String) : List String → GoSlice
  | [] => .mk (slice.toList ++ [i])
  | ele :: rest => if ele = i then slice else appendIfMissing.loop slice i rest

/-- The function `appendIfMissing` of `main.go`. -/
def appendIfMissing (slice : GoSlice) (i : String) : GoSlice :=
  appendIfMissing.loop slice i slice.toList

/-! ## Responses -/

/-- A JSON value as produced by `encoding/json` for the fields of `Race`. -/
inductive JSONValue where
  | null
  | string (s : String)
  | strings (xs : List String)
deriving DecidableEq, Repr

/-- The JSON object `json.MarshalIndent(race, "", "  ")` encodes, member by
member in field order, with the keys of the `json:` tags of `Race`; a nil
slice encodes as `null`, any other slice as an array. -/
def marshalRace (race : Race) : List (String × JSONValue) :=
  [("id", .string race.ID),
   ("capturedcheckpoints",
      match race.CapturedCheckpoints with
      | .nil => .null
      | .mk elems => .strings elems)]

/-- What a handler wrote after the status line. -/
inductive Body where
  | empty
  | bytes (b : String)
  | json (members : List (String × JSONValue))
  | error (message : String)
deriving DecidableEq, Repr

/-- The status code and body written to the `http.ResponseWriter`. -/
structure Response where
  status : Nat
  body : Body
deriving DecidableEq, Repr

def StatusOK : Nat := 200
def StatusNoContent : Nat := 204
def StatusBadRequest : Nat := 400
def StatusNotFound : Nat := 404
def StatusInternalServerError : Nat := 500
def StatusServiceUnavailable : Nat := 503

/-- Modelled from the spec: `responseWithJSON` is called by the handlers but is
not defined in the files at hand; it answers with the given status code and the
given JSON body (§4.3: "200 with race JSON"). -/
def responseWithJSON (respBody : List (String × JSONValue)) (code : Nat) : Response :=
  { status := code, body := .json respBody }

/-- Modelled from the spec: `errorWithJSON` is called by the handlers but is not
defined in the files at hand; it answers with the given status code and a JSON
object carrying the message (§7: "all error responses are JSON objects with a
human-readable message field"). -/
def errorWithJSON (message : String) (code : Nat) : Response :=
  { status := code, body := .error message }

/-! ## The store -/

/-- An `error` returned by an mgo call: the value `mgo.ErrNotFound`, or any
other error with its message. -/
inductive StoreError where
  | ErrNotFound
  | other (msg : String)
deriving DecidableEq, Repr

/-- The method `Error()`; `mgo.ErrNotFound` is `errors.New("not found")`. -/
def StoreError.Error : StoreError → String
  | .ErrNotFound => "not found"
  | .other msg => msg

/-- The calls the handlers make on the collection `races`, over a store state `σ`:
`c.Find(bson.M{"Id": ID}).One(&race)`, `c.Upsert(bson.M{"Id": ID}, &race)` and
`c.Remove(bson.M{"Id": ID})`.  A query reads; the two others return the store
they leave behind and the error (`none` for `nil`). -/
structure Collection (σ : Type) where
  Find : String → σ → Except StoreError Race
  Upsert : String → Race → σ → σ × Option StoreError
  Remove : String → σ → σ × Option StoreError

/-! ## Handlers (`main.go`) -/

/-- The initial value of the package variable `healthy int32`. -/
def healthy : Int := 0

/-- The handler `healthz`, given the value read by `atomic.LoadInt32(&healthy)`. -/
def healthz (loaded : Int) : Response :=
  if loaded = 1 then
    { status := StatusOK, body := .bytes "\x7b\"status\": \"OK\"\x7d" }
  else
    { status := StatusServiceUnavailable, body := .empty }

/-- The handler `raceByID` (GET /races/:Id). -/
def raceByID {σ : Type} (c : Collection σ) (ID : String) (db : σ) : σ × Response :=
  let race : Race :=
    match c.Find ID db with
    | .ok found => found
    | .error err => if err.Error = "not found" then NewRace ID else Race.zero
  (db, responseWithJSON (marshalRace race) StatusOK)

/-- The handler `createOrUpdateRace` from line 206 on, with the race the lookup
left in `race`: the guard on the empty id, `appendIfMissing`, the upsert and
the answer. -/
def createOrUpdateRace.record {σ : Type} (c : Collection σ) (ID : String)
    (captured : CapturedCheckpoint) (db : σ) (race : Race) : σ × Response :=
  if race.ID = "" then
    (db, errorWithJSON "Race not found" StatusNotFound)
  else
    let race : Race :=
      { race with CapturedCheckpoints :=
          appendIfMissing race.CapturedCheckpoints captured.CapturedCheckpoint }
    match c.Upsert ID race db with
    | (db1, some .ErrNotFound) => (db1, errorWithJSON "Race not found" StatusNotFound)
    | (db1, some _) => (db1, errorWithJSON "Database error" StatusInternalServerError)
    | (db1, none) => (db1, responseWithJSON (marshalRace race) StatusOK)

/-- The handler `createOrUpdateRace` (PUT /races/:Id); `decoded` is the outcome of
`decoder.Decode(&captured)` on the request body. -/
def createOrUpdateRace {σ : Type} (c : Collection σ) (ID : String)
    (decoded : Except String CapturedCheckpoint) (db : σ) : σ × Response :=
  match decoded with
  | .error _ => (db, errorWithJSON "Incorrect body" StatusBadRequest)
  | .ok captured =>
    match c.Find ID db with
    | .ok found => createOrUpdateRace.record c ID captured db found
    | .error err =>
      if err.Error = "not found" then
        createOrUpdateRace.record c ID captured db (NewRace ID)
      else (db, errorWithJSON "Database error" StatusInternalServerError)

/-- The handler `deleteRace` (DELETE /races/:Id). -/
def deleteRace {σ : Type} (c : Collection σ) (ID : String) (db : σ) : σ × Response :=
  match c.Remove ID db with
  | (db1, some .ErrNotFound) => (db1, errorWithJSON "Race not found" StatusNotFound)
  | (db1, some _) => (db1, errorWithJSON "Database error" StatusInternalServerError)
  | (db1, none) => (db1, { status := StatusNoContent, body := .empty })

/-! ## The keyed-document store of the specification -/

/-- Modelled from the spec: the persistent store is not part of the repository;
§4.1 describes it as a keyed-document store, one document per race id.  The
three failure fields hold the message of the connectivity failure the next
lookup, upsert or delete meets, if any. -/
structure Store where
  docs : String → Option Race
  findFault : Option String
  upsertFault : Option String
  removeFault : Option String

/-- Modelled from the spec: §4.1 `find(id) → Race | NotFound`, exact lookup by id. -/
def Store.find (ID : String) (db : Store) : Except StoreError Race :=
  match db.findFault with
  | some msg => .error (.other msg)
  | none =>
    match db.docs ID with
    | some race => .ok race
    | none => .error .ErrNotFound

/-- Modelled from the spec: §4.1 `upsert(id, race)`, insert if absent, replace if
present, keyed by id. -/
def Store.upsert (ID : String) (race : Race) (db : Store) : Store × Option StoreError :=
  match db.upsertFault with
  | some msg => (db, some (.other msg))
  | none => ({ db with docs := fun k => if k = ID then some race else db.docs k }, none)

/-- Modelled from the spec: §4.1 `delete(id) → Deleted | NotFound`, removes the
entity and signals `NotFound` distinctly from other failures. -/
def Store.remove (ID : String) (db : Store) : Store × Option StoreError :=
  match db.removeFault with
  | some msg => (db, some (.other msg))
  | none =>
    match db.docs ID with
    | some _ => ({ db with docs := fun k => if k = ID then none else db.docs k }, none)
    | none => (db, some .ErrNotFound)

/-- The collection `races` over the keyed-document store. -/
def memColl : Collection Store :=
  { Find := Store.find, Upsert := Store.upsert, Remove := Store.remove }

/-- The store holding no race, with every call succeeding. -/
def Store.init : Store :=
  { docs := fun _ => none, findFault := none, upsertFault := none, removeFault := none }

/-- The store holding the given race under its id, with every call succeeding. -/
def Store.single (race : Race) : Store :=
  { docs := fun k => if k = race.ID then some race else none,
    findFault := none, upsertFault := none, removeFault := none }

/-! ## JSON text -/

/-- The scan of `compactJSON`: `inStr` tells whether the scan is inside a string
literal, `esc` whether the last character was a backslash inside one. -/
def compactJSON.go : List Char → Bool → Bool → List Char
  | [], _, _ => []
  | ch :: rest, true, true => ch :: compactJSON.go rest true false
  | ch :: rest, true, false =>
    if ch = '\\' then ch :: compactJSON.go rest true true
    else if ch = '"' then ch :: compactJSON.go rest false false
    else ch :: compactJSON.go rest true false
  | ch :: rest, false, _ =>
    if ch = '"' then ch :: compactJSON.go rest true false
    else if ch = ' ' ∨ ch = '\t' ∨ ch = '\n' ∨ ch = '\r' then compactJSON.go rest false false
    else ch :: compactJSON.go rest false false

/-- A JSON text without its insignificant whitespace (RFC 8259, §2: the
whitespace around the structural characters), the string literals untouched. -/
def compactJSON (text : String) : String :=
  String.mk (compactJSON.go text.data false false)

/-! ## Lemmas on `appendIfMissing` -/

theorem appendIfMissing.loop_eq (slice : GoSlice) (i : String) (todo : List String) :
    appendIfMissing.loop slice i todo =
      if i ∈ todo then slice else .mk (slice.toList ++ [i]) := by
  induction todo with
  | nil => simp [appendIfMissing.loop]
  | cons ele rest ih =>
    by_cases h : ele = i
    · simp [appendIfMissing.loop, h]
    · have h2 : ¬ i = ele := fun e => h e.symm
      simp [appendIfMissing.loop, h, h2, ih]

theorem appendIfMissing_eq (slice : GoSlice) (i : String) :
    appendIfMissing slice i =
      if i ∈ slice.toList then slice else .mk (slice.toList ++ [i]) :=
  appendIfMissing.loop_eq slice i slice.toList

theorem appendIfMissing_toList (slice : GoSlice) (i : String) :
    (appendIfMissing slice i).toList =
      if i ∈ slice.toList then slice.toList else slice.toList ++ [i] := by
  rw [appendIfMissing_eq]
  split <;> simp [GoSlice.toList]

theorem mem_appendIfMissing (slice : GoSlice) (i : String) :
    i ∈ (appendIfMissing slice i).toList := by
  rw [appendIfMissing_toList]
  split <;> simp_all

theorem appendIfMissing_idem (slice : GoSlice) (i : String) :
    appendIfMissing (appendIfMissing slice i) i = appendIfMissing slice i := by
  have h := mem_appendIfMissing slice i
  rw [appendIfMissing_eq (appendIfMissing slice i) i, if_pos h]

theorem appendIfMissing_nodup (slice : GoSlice) (i : String)
    (h : slice.toList.Nodup) : (appendIfMissing slice i).toList.Nodup := by
  rw [appendIfMissing_toList]
  split
  · exact h
  · rename_i hmem
    exact List.Nodup.append h (List.nodup_singleton i) (by simpa using hmem)

theorem foldl_appendIfMissing_nodup (reports : List String) (slice : GoSlice)
    (h : slice.toList.Nodup) : (reports.foldl appendIfMissing slice).toList.Nodup := by
  induction reports generalizing slice with
  | nil => simpa using h
  | cons c rest ih => exact ih _ (appendIfMissing_nodup slice c h)

theorem appendIfMissing_mk_toList (slice : GoSlice) (i : String) :
    appendIfMissing slice i = .mk (appendIfMissing slice i).toList := by
  rw [appendIfMissing_eq]
  split
  · rename_i hmem
    cases slice with
    | nil => simp [GoSlice.toList] at hmem
    | mk elems => rfl
  · rfl

/-! ## The PUT handler on the keyed-document store -/

theorem createOrUpdateRace_memColl (r c : String) (db : Store)
    (hf : db.findFault = none) (hu : db.upsertFault = none) :
    createOrUpdateRace memColl r (.ok ⟨c⟩) db =
      if ((db.docs r).getD (NewRace r)).ID = "" then
        (db, errorWithJSON "Race not found" StatusNotFound)
      else
        ({ db with docs := (fun k =>
            if k = r then
              some (Race.mk ((db.docs r).getD (NewRace r)).ID
                (appendIfMissing ((db.docs r).getD (NewRace r)).CapturedCheckpoints c))
            else db.docs k) },
          responseWithJSON
            (marshalRace (Race.mk ((db.docs r).getD (NewRace r)).ID
              (appendIfMissing ((db.docs r).getD (NewRace r)).CapturedCheckpoints c)))
            StatusOK) := by
  cases hd : db.docs r with
  | none =>
    by_cases hr : (NewRace r).ID = ""
    · simp [createOrUpdateRace, createOrUpdateRace.record, memColl, Store.find, hf, hd,
        StoreError.Error, hr]
    · simp [createOrUpdateRace, createOrUpdateRace.record, memColl, Store.find,
        Store.upsert, hf, hu, hd, StoreError.Error, hr]
  | some race =>
    by_cases hr : race.ID = ""
    · simp [createOrUpdateRace, createOrUpdateRace.record, memColl, Store.find, hf, hd, hr]
    · simp [createOrUpdateRace, createOrUpdateRace.record, memColl, Store.find,
        Store.upsert, hf, hu, hd, hr]


theorem record_preserves_nodup (db : Store) (ID : String)
    (captured : CapturedCheckpoint) (found : Race)
    (hinv : ∀ k race, db.docs k = some race → race.CapturedCheckpoints.toList.Nodup)
    (hnd : found.CapturedCheckpoints.toList.Nodup) :
    ∀ k race, (createOrUpdateRace.record memColl ID captured db found).1.docs k = some race →
      race.CapturedCheckpoints.toList.Nodup := by
  intro k race
  unfold createOrUpdateRace.record
  by_cases hid : found.ID = ""
  · simp only [hid, if_true]
    exact hinv k race
  · simp only [hid, if_false, memColl, Store.upsert]
    cases hu : db.upsertFault with
    | some msg =>
      simp only
      exact hinv k race
    | none =>
      simp only
      by_cases hkr : k = ID
      · simp only [hkr, if_true, Option.some.injEq]
        intro hk
        rw [← hk]
        exact appendIfMissing_nodup _ _ hnd
      · simp only [hkr, if_false]
        exact hinv k race

theorem put_preserves_nodup (db : Store) (ID : String)
    (decoded : Except String CapturedCheckpoint)
    (hinv : ∀ k race, db.docs k = some race → race.CapturedCheckpoints.toList.Nodup) :
    ∀ k race, (createOrUpdateRace memColl ID decoded db).1.docs k = some race →
      race.CapturedCheckpoints.toList.Nodup := by
  intro k race
  cases decoded with
  | error msg => exact hinv k race
  | ok captured =>
    unfold createOrUpdateRace
    simp only
    cases hfind : memColl.Find ID db with
    | ok found =>
      have hnd : found.CapturedCheckpoints.toList.Nodup := by
        simp only [memColl, Store.find] at hfind
        cases hf : db.findFault with
        | some msg => simp [hf] at hfind
        | none =>
          cases hd : db.docs ID with
          | none => simp [hf, hd] at hfind
          | some race0 =>
            simp only [hf, hd, Except.ok.injEq] at hfind
            rw [← hfind]
            exact hinv ID race0 hd
      exact record_preserves_nodup db ID captured found hinv hnd k race
    | error err =>
      by_cases hnf : err.Error = "not found"
      · simp only [hnf, if_true]
        exact record_preserves_nodup db ID captured (NewRace ID) hinv
          (by simp [NewRace, GoSlice.toList]) k race
      · simp only [hnf, if_false]
        exact hinv k race

/-! ## Idempotence and set semantics -/

/-- C1: on the keyed-document store with the lookup and the upsert succeeding,
a second PUT /races/r with the same checkpoint writes the same response as the
first and leaves the store as the first left it; and `appendIfMissing` applied
twice with the same string equals `appendIfMissing` applied once. -/
theorem record_checkpoint_idempotent (r c : String) (db : Store)
    (hf : db.findFault = none) (hu : db.upsertFault = none) :
    (createOrUpdateRace memColl r (.ok ⟨c⟩)
        (createOrUpdateRace memColl r (.ok ⟨c⟩) db).1).2
      = (createOrUpdateRace memColl r (.ok ⟨c⟩) db).2
    ∧ (createOrUpdateRace memColl r (.ok ⟨c⟩)
        (createOrUpdateRace memColl r (.ok ⟨c⟩) db).1).1
      = (createOrUpdateRace memColl r (.ok ⟨c⟩) db).1
    ∧ ∀ (s : GoSlice) (i : String),
        appendIfMissing (appendIfMissing s i) i = appendIfMissing s i := by
  refine ⟨?_, ?_, appendIfMissing_idem⟩
  · rw [createOrUpdateRace_memColl r c db hf hu]
    by_cases hid : ((db.docs r).getD (NewRace r)).ID = ""
    · simp only [hid, if_true]
      rw [createOrUpdateRace_memColl r c db hf hu]
      simp only [hid, if_true]
    · simp [createOrUpdateRace_memColl, hf, hu, hid, appendIfMissing_idem]
  · rw [createOrUpdateRace_memColl r c db hf hu]
    by_cases hid : ((db.docs r).getD (NewRace r)).ID = ""
    · simp only [hid, if_true]
      rw [createOrUpdateRace_memColl r c db hf hu]
      simp only [hid, if_true]
    · simp [createOrUpdateRace_memColl, hf, hu, hid, appendIfMissing_idem]
      funext k
      by_cases hk : k = r <;> simp [hk]

theorem record_checkpoint_idempotent_witness :
    (Store.single (NewRace "R1")).findFault = none
    ∧ (Store.single (NewRace "R1")).upsertFault = none
    ∧ (createOrUpdateRace memColl "R1" (.ok ⟨"CP1"⟩) (Store.single (NewRace "R1"))).2
      = ⟨200, .json [("id", .string "R1"), ("capturedcheckpoints", .strings ["CP1"])]⟩
    ∧ (createOrUpdateRace memColl "R1" (.ok ⟨"CP1"⟩)
        (createOrUpdateRace memColl "R1" (.ok ⟨"CP1"⟩) (Store.single (NewRace "R1"))).1).2
      = (createOrUpdateRace memColl "R1" (.ok ⟨"CP1"⟩) (Store.single (NewRace "R1"))).2
    ∧ (createOrUpdateRace memColl "R1" (.ok ⟨"CP1"⟩)
        (createOrUpdateRace memColl "R1" (.ok ⟨"CP1"⟩) (Store.single (NewRace "R1"))).1).1
      = (createOrUpdateRace memColl "R1" (.ok ⟨"CP1"⟩) (Store.single (NewRace "R1"))).1 :=
  ⟨rfl, rfl, by decide,
    (record_checkpoint_idempotent "R1" "CP1" (Store.single (NewRace "R1")) rfl rfl).1,
    (record_checkpoint_idempotent "R1" "CP1" (Store.single (NewRace "R1")) rfl rfl).2.1⟩

/-- C2: `NewRace` starts with an empty, duplicate-free list; `appendIfMissing`
keeps a duplicate-free list duplicate-free; any sequence of reports folded
with `appendIfMissing` from the list of `NewRace` is duplicate-free; and on the
keyed-document store any sequence of PUT requests, whatever the ids, the
bodies and the failures met, keeps every stored list duplicate-free. -/
theorem checkpoints_never_duplicate (id : String) (s : GoSlice) (c : String)
    (reports : List String) (db : Store)
    (reqs : List (String × Except String CapturedCheckpoint))
    (hs : s.toList.Nodup)
    (hdb : ∀ k race, db.docs k = some race → race.CapturedCheckpoints.toList.Nodup) :
    (NewRace id).CapturedCheckpoints.toList = []
    ∧ (appendIfMissing s c).toList.Nodup
    ∧ (reports.foldl appendIfMissing (NewRace id).CapturedCheckpoints).toList.Nodup
    ∧ ∀ k race,
        (reqs.foldl (fun st q => (createOrUpdateRace memColl q.1 q.2 st).1) db).docs k
            = some race →
          race.CapturedCheckpoints.toList.Nodup := by
  refine ⟨rfl, appendIfMissing_nodup s c hs,
    foldl_appendIfMissing_nodup reports _ (by simp [NewRace, GoSlice.toList]), ?_⟩
  induction reqs generalizing db with
  | nil => simpa using hdb
  | cons q rest ih =>
    simp only [List.foldl_cons]
    exact ih _ (put_preserves_nodup db q.1 q.2 hdb)

theorem checkpoints_never_duplicate_witness :
    (GoSlice.mk ["CP1", "CP2"]).toList.Nodup
    ∧ (∀ k race, Store.init.docs k = some race → race.CapturedCheckpoints.toList.Nodup)
    ∧ (appendIfMissing (.mk ["CP1", "CP2"]) "CP1").toList.Nodup
    ∧ (["CP1", "CP2", "CP1", "CP2"].foldl appendIfMissing
        (NewRace "R1").CapturedCheckpoints).toList.Nodup :=
  ⟨by decide,
    (by intro k race h; simp [Store.init] at h),
    (checkpoints_never_duplicate "R1" (.mk ["CP1", "CP2"]) "CP1"
      ["CP1", "CP2", "CP1", "CP2"] Store.init
      [("R1", .ok ⟨"CP1"⟩), ("R1", .ok ⟨"CP1"⟩)] (by decide)
      (by intro k race h; simp [Store.init] at h)).2.1,
    (checkpoints_never_duplicate "R1" (.mk ["CP1", "CP2"]) "CP1"
      ["CP1", "CP2", "CP1", "CP2"] Store.init
      [("R1", .ok ⟨"CP1"⟩), ("R1", .ok ⟨"CP1"⟩)] (by decide)
      (by intro k race h; simp [Store.init] at h)).2.2.1⟩

/-! ## Recording a checkpoint -/

/-- C3: for every collection in which the lookup of a non-empty id r returns
the race (r, S) and the upsert of (r, S2) under key r succeeds, where S2 is S
if c occurs in S and S followed by c otherwise, PUT /races/r with c answers 200
with the race (r, S2) and leaves the store that this upsert leaves; S is an
initial segment of S2 and c is a member of S2. -/
theorem record_on_present_race {σ : Type} (coll : Collection σ) (db : σ)
    (r c : String) (S : GoSlice)
    (hr : r ≠ "")
    (hfind : coll.Find r db = .ok { ID := r, CapturedCheckpoints := S })
    (hups : (coll.Upsert r
      { ID := r,
        CapturedCheckpoints := .mk (if c ∈ S.toList then S.toList else S.toList ++ [c]) }
      db).2 = none) :
    (createOrUpdateRace coll r (.ok ⟨c⟩) db).2
      = { status := 200,
          body := .json
            [("id", .string r),
             ("capturedcheckpoints",
                .strings (if c ∈ S.toList then S.toList else S.toList ++ [c]))] }
    ∧ (createOrUpdateRace coll r (.ok ⟨c⟩) db).1
      = (coll.Upsert r
          { ID := r,
            CapturedCheckpoints := .mk (if c ∈ S.toList then S.toList else S.toList ++ [c]) }
          db).1
    ∧ S.toList <+: (if c ∈ S.toList then S.toList else S.toList ++ [c])
    ∧ c ∈ (if c ∈ S.toList then S.toList else S.toList ++ [c]) := by
  have hS : appendIfMissing S c
      = .mk (if c ∈ S.toList then S.toList else S.toList ++ [c]) := by
    rw [appendIfMissing_mk_toList, appendIfMissing_toList]
  refine ⟨?_, ?_, ?_, ?_⟩
  · simp only [createOrUpdateRace, createOrUpdateRace.record, hfind, hr, if_false, hS]
    generalize hres : coll.Upsert r _ db = res at hups
    obtain ⟨db1, e⟩ := res
    simp only at hups
    subst hups
    simp [responseWithJSON, marshalRace, StatusOK]
  · simp only [createOrUpdateRace, createOrUpdateRace.record, hfind, hr, if_false, hS]
    generalize hres : coll.Upsert r _ db = res at hups
    obtain ⟨db1, e⟩ := res
    simp only at hups
    subst hups
    rfl
  · split
    · exact List.prefix_refl _
    · exact List.prefix_append _ _
  · split
    · assumption
    · simp

theorem record_on_present_race_witness :
    "R1" ≠ ""
    ∧ memColl.Find "R1" (Store.single { ID := "R1", CapturedCheckpoints := .mk ["CP1"] })
      = .ok { ID := "R1", CapturedCheckpoints := .mk ["CP1"] }
    ∧ (createOrUpdateRace memColl "R1" (.ok ⟨"CP2"⟩)
        (Store.single { ID := "R1", CapturedCheckpoints := .mk ["CP1"] })).2
      = { status := 200,
          body := .json
            [("id", .string "R1"),
             ("capturedcheckpoints",
                .strings (if "CP2" ∈ (GoSlice.mk ["CP1"]).toList then (GoSlice.mk ["CP1"]).toList
                  else (GoSlice.mk ["CP1"]).toList ++ ["CP2"]))] }
    ∧ (createOrUpdateRace memColl "R1" (.ok ⟨"CP2"⟩)
        (Store.single { ID := "R1", CapturedCheckpoints := .mk ["CP1"] })).2
      = { status := 200,
          body := .json
            [("id", .string "R1"), ("capturedcheckpoints", .strings ["CP1", "CP2"])] } :=
  ⟨by decide, rfl,
    (record_on_present_race memColl
      (Store.single { ID := "R1", CapturedCheckpoints := .mk ["CP1"] })
      "R1" "CP2" (.mk ["CP1"]) (by decide) rfl rfl).1,
    by decide⟩

/-- C4, refuted as stated: on the store holding no race, PUT /races/R2 with
checkpoint CP1 answers 200 and stores the race (R2, [CP1]); it does not answer
404 and the store is not left unchanged. -/
theorem record_on_absent_race_creates :
    Store.init.docs "R2" = none
    ∧ (createOrUpdateRace memColl "R2" (.ok ⟨"CP1"⟩) Store.init).2
      = { status := 200,
          body := .json [("id", .string "R2"), ("capturedcheckpoints", .strings ["CP1"])] }
    ∧ (createOrUpdateRace memColl "R2" (.ok ⟨"CP1"⟩) Store.init).1.docs "R2"
      = some { ID := "R2", CapturedCheckpoints := .mk ["CP1"] }
    ∧ ¬ ((createOrUpdateRace memColl "R2" (.ok ⟨"CP1"⟩) Store.init).2.status = 404
        ∧ (createOrUpdateRace memColl "R2" (.ok ⟨"CP1"⟩) Store.init).1.docs "R2"
          = Store.init.docs "R2") := by
  refine ⟨rfl, by decide, by decide, ?_⟩
  intro h
  exact absurd h.1 (by decide)

/-- C4, amended: for every collection in which the lookup of r reports not
found, PUT /races/r answers 404 exactly when r is the empty id or the upsert
itself returns `mgo.ErrNotFound`; and when r is the empty id the answer is
404 "Race not found" with the store left as it was, no upsert being made. -/
theorem record_not_found_iff {σ : Type} (coll : Collection σ) (db : σ)
    (r c : String) (e : StoreError)
    (hfind : coll.Find r db = .error e) (hnf : e.Error = "not found") :
    ((createOrUpdateRace coll r (.ok ⟨c⟩) db).2.status = 404
      ↔ (r = "" ∨ (coll.Upsert r { ID := r, CapturedCheckpoints := .mk [c] } db).2
            = some .ErrNotFound))
    ∧ (r = "" →
        createOrUpdateRace coll r (.ok ⟨c⟩) db
          = (db, { status := 404, body := .error "Race not found" })) := by
  have hc : appendIfMissing (.mk []) c = .mk [c] := rfl
  refine ⟨?_, ?_⟩
  · by_cases hr : r = ""
    · subst hr
      simp [createOrUpdateRace, createOrUpdateRace.record, hfind, hnf, NewRace,
        errorWithJSON, StatusNotFound]
    · simp only [createOrUpdateRace, createOrUpdateRace.record, hfind, hnf, hr, NewRace,
        if_true, if_false, hc, false_or]
      generalize coll.Upsert r _ db = res
      obtain ⟨db1, err⟩ := res
      cases err with
      | none => simp [responseWithJSON, StatusOK]
      | some err =>
        cases err <;> simp [errorWithJSON, StatusNotFound, StatusInternalServerError]
  · intro hr
    subst hr
    simp [createOrUpdateRace, createOrUpdateRace.record, hfind, hnf, NewRace,
      errorWithJSON, StatusNotFound]

theorem record_not_found_iff_witness :
    memColl.Find "" Store.init = .error .ErrNotFound
    ∧ createOrUpdateRace memColl "" (.ok ⟨"CP1"⟩) Store.init
      = (Store.init, { status := 404, body := .error "Race not found" }) :=
  ⟨rfl, (record_not_found_iff memColl Store.init "" "CP1" .ErrNotFound rfl rfl).2 rfl⟩

/-- C5: on the keyed-document store, for every non-empty id r under which no
race is stored, with the lookup and the upsert succeeding, PUT /races/r with c
answers 200 with the race (r, [c]); afterwards the store holds exactly that
race under key r, a lookup of r returns it, and every other key is as before. -/
theorem create_on_write (r c : String) (db : Store)
    (hr : r ≠ "") (habs : db.docs r = none)
    (hf : db.findFault = none) (hu : db.upsertFault = none) :
    (createOrUpdateRace memColl r (.ok ⟨c⟩) db).2
      = { status := 200,
          body := .json [("id", .string r), ("capturedcheckpoints", .strings [c])] }
    ∧ (createOrUpdateRace memColl r (.ok ⟨c⟩) db).1.docs r
      = some { ID := r, CapturedCheckpoints := .mk [c] }
    ∧ memColl.Find r (createOrUpdateRace memColl r (.ok ⟨c⟩) db).1
      = .ok { ID := r, CapturedCheckpoints := .mk [c] }
    ∧ ∀ k, k ≠ r → (createOrUpdateRace memColl r (.ok ⟨c⟩) db).1.docs k = db.docs k := by
  have hc : appendIfMissing (.mk []) c = .mk [c] := rfl
  rw [createOrUpdateRace_memColl r c db hf hu]
  simp only [habs, Option.getD_none, NewRace, hr, if_false, hc]
  refine ⟨?_, ?_, ?_, ?_⟩
  · simp [responseWithJSON, marshalRace, StatusOK]
  · simp
  · simp [memColl, Store.find, hf]
  · intro k hk
    simp [hk]

theorem create_on_write_witness :
    "R2" ≠ ""
    ∧ Store.init.docs "R2" = none
    ∧ Store.init.findFault = none
    ∧ Store.init.upsertFault = none
    ∧ (createOrUpdateRace memColl "R2" (.ok ⟨"CP1"⟩) Store.init).2
      = { status := 200,
          body := .json [("id", .string "R2"), ("capturedcheckpoints", .strings ["CP1"])] }
    ∧ (createOrUpdateRace memColl "R2" (.ok ⟨"CP1"⟩) Store.init).1.docs "R2"
      = some { ID := "R2", CapturedCheckpoints := .mk ["CP1"] } :=
  ⟨by decide, rfl, rfl, rfl,
    (create_on_write "R2" "CP1" Store.init (by decide) rfl rfl rfl).1,
    (create_on_write "R2" "CP1" Store.init (by decide) rfl rfl rfl).2.1⟩

/-! ## Reading -/

/-- C6: for every collection, id r and store state, GET /races/r leaves the
store as it was; when the lookup reports not found the answer is 200 with the
race of id r and the empty array (not `null`) as its checkpoint list, a lookup
after the request still reports not found, and a second GET answers the same. -/
theorem read_never_writes {σ : Type} (coll : Collection σ) (r : String) (db : σ) :
    (raceByID coll r db).1 = db
    ∧ ∀ e, coll.Find r db = .error e → e.Error = "not found" →
        (raceByID coll r db).2
          = { status := 200,
              body := .json [("id", .string r), ("capturedcheckpoints", .strings [])] }
        ∧ (raceByID coll r db).2.body
          ≠ .json [("id", .string r), ("capturedcheckpoints", .null)]
        ∧ coll.Find r (raceByID coll r db).1 = .error e
        ∧ (raceByID coll r (raceByID coll r db).1).2 = (raceByID coll r db).2 := by
  refine ⟨rfl, ?_⟩
  intro e hfind hnf
  have hresp : (raceByID coll r db).2
      = { status := 200,
          body := .json [("id", .string r), ("capturedcheckpoints", .strings [])] } := by
    simp [raceByID, hfind, hnf, NewRace, marshalRace, responseWithJSON, StatusOK]
  refine ⟨hresp, ?_, hfind, rfl⟩
  rw [hresp]
  simp

theorem read_never_writes_witness :
    memColl.Find "R1" Store.init = .error .ErrNotFound
    ∧ (raceByID memColl "R1" Store.init).2
      = { status := 200,
          body := .json [("id", .string "R1"), ("capturedcheckpoints", .strings [])] }
    ∧ memColl.Find "R1" (raceByID memColl "R1" Store.init).1 = .error .ErrNotFound :=
  ⟨rfl,
    ((read_never_writes memColl "R1" Store.init).2 .ErrNotFound rfl rfl).1,
    ((read_never_writes memColl "R1" Store.init).2 .ErrNotFound rfl rfl).2.2.1⟩

/-! ## Store failures -/

/-- C7, the failing input: with the lookup failing on a connectivity error,
GET /races/R1 answers 200, not 500, and its body is the zero race: the empty
id and `null` for the checkpoint list. -/
theorem read_store_failure_answers_200 :
    memColl.Find "R1" { Store.init with findFault := some "no reachable servers" }
      = .error (.other "no reachable servers")
    ∧ (raceByID memColl "R1" { Store.init with findFault := some "no reachable servers" }).2
      = { status := 200,
          body := .json [("id", .string ""), ("capturedcheckpoints", .null)] } := by
  exact ⟨rfl, by decide⟩

/-- The part of C7 the code meets: for every collection, a lookup error whose
message is not "not found" makes PUT answer 500; an upsert error other than
`mgo.ErrNotFound` makes PUT answer 500; a removal error other than
`mgo.ErrNotFound` makes DELETE answer 500.  For GET, every such lookup error
gives 200 with the zero race. -/
theorem store_failure_statuses {σ : Type} (coll : Collection σ) (r c : String)
    (db : σ) (e : StoreError) :
    (coll.Find r db = .error e → e.Error ≠ "not found" →
        (createOrUpdateRace coll r (.ok ⟨c⟩) db).2.status = 500)
    ∧ (∀ race, e ≠ .ErrNotFound → race.ID ≠ "" →
        (coll.Upsert r
          { race with CapturedCheckpoints := appendIfMissing race.CapturedCheckpoints c }
          db).2 = some e →
        (createOrUpdateRace.record coll r ⟨c⟩ db race).2.status = 500)
    ∧ ((coll.Remove r db).2 = some e → e ≠ .ErrNotFound →
        (deleteRace coll r db).2.status = 500)
    ∧ (coll.Find r db = .error e → e.Error ≠ "not found" →
        (raceByID coll r db).2
          = { status := 200,
              body := .json [("id", .string ""), ("capturedcheckpoints", .null)] }) := by
  refine ⟨?_, ?_, ?_, ?_⟩
  · intro hfind hnf
    simp [createOrUpdateRace, hfind, hnf, errorWithJSON, StatusInternalServerError]
  · intro race he hid hups
    simp only [createOrUpdateRace.record, hid, if_false]
    generalize coll.Upsert r _ db = res at hups
    obtain ⟨db1, err⟩ := res
    simp only at hups
    subst hups
    cases e with
    | ErrNotFound => exact absurd rfl he
    | other msg => simp [errorWithJSON, StatusInternalServerError]
  · intro hrem he
    simp only [deleteRace]
    generalize coll.Remove r db = res at hrem
    obtain ⟨db1, err⟩ := res
    simp only at hrem
    subst hrem
    cases e with
    | ErrNotFound => exact absurd rfl he
    | other msg => simp [errorWithJSON, StatusInternalServerError]
  · intro hfind hnf
    simp [raceByID, hfind, hnf, Race.zero, marshalRace, responseWithJSON, StatusOK]

/-! ## Deleting -/

/-- C8: for every collection, DELETE /races/r answers 204 exactly when the
removal returns no error, 404 exactly when it returns `mgo.ErrNotFound`, and
never 200.  On the keyed-document store, a 204 means a race was stored under
r and none is afterwards, and a following GET whose lookup succeeds answers
200 with the race of id r and the empty checkpoint list; a 404 means no race
was stored under r and the store is left unchanged. -/
theorem delete_status (r : String) (db : Store) :
    (∀ (σ : Type) (coll : Collection σ) (st : σ),
        ((deleteRace coll r st).2.status = 204 ↔ (coll.Remove r st).2 = none)
        ∧ ((deleteRace coll r st).2.status = 404 ↔ (coll.Remove r st).2 = some .ErrNotFound)
        ∧ (deleteRace coll r st).2.status ≠ 200)
    ∧ ((deleteRace memColl r db).2.status = 204 →
        db.docs r ≠ none
        ∧ (deleteRace memColl r db).1.docs r = none
        ∧ (db.findFault = none →
            (raceByID memColl r (deleteRace memColl r db).1).2
              = { status := 200,
                  body := .json [("id", .string r), ("capturedcheckpoints", .strings [])] }))
    ∧ ((deleteRace memColl r db).2.status = 404 →
        db.docs r = none ∧ (deleteRace memColl r db).1 = db) := by
  refine ⟨?_, ?_, ?_⟩
  · intro σ coll st
    simp only [deleteRace]
    generalize coll.Remove r st = res
    obtain ⟨db1, err⟩ := res
    cases err with
    | none => simp [StatusNoContent]
    | some err =>
      cases err <;> simp [errorWithJSON, StatusNotFound, StatusInternalServerError]
  · simp only [deleteRace, memColl, Store.remove]
    cases hrf : db.removeFault with
    | some msg => simp [errorWithJSON, StatusInternalServerError]
    | none =>
      cases hd : db.docs r with
      | none => simp [errorWithJSON, StatusNotFound]
      | some race =>
        simp only [ne_eq, not_false_eq_true, reduceCtorEq, if_true, true_and]
        intro _ hf
        simp [raceByID, Store.find, hf, StoreError.Error, NewRace, marshalRace,
          responseWithJSON, StatusOK]
  · simp only [deleteRace, memColl, Store.remove]
    cases hrf : db.removeFault with
    | some msg => simp [errorWithJSON, StatusInternalServerError]
    | none =>
      cases hd : db.docs r with
      | none => simp
      | some race => simp [StatusNoContent]

theorem delete_status_witness :
    (deleteRace memColl "R1"
        (Store.single { ID := "R1", CapturedCheckpoints := .mk ["CP1"] })).2.status = 204
    ∧ (deleteRace memColl "R1"
        (Store.single { ID := "R1", CapturedCheckpoints := .mk ["CP1"] })).1.docs "R1" = none
    ∧ (raceByID memColl "R1"
        (deleteRace memColl "R1"
          (Store.single { ID := "R1", CapturedCheckpoints := .mk ["CP1"] })).1).2
      = { status := 200,
          body := .json [("id", .string "R1"), ("capturedcheckpoints", .strings [])] }
    ∧ (deleteRace memColl "R1" Store.init).2.status = 404
    ∧ (deleteRace memColl "R1" Store.init).1 = Store.init :=
  ⟨by decide,
    ((delete_status "R1"
      (Store.single { ID := "R1", CapturedCheckpoints := .mk ["CP1"] })).2.1 (by decide)).2.1,
    ((delete_status "R1"
      (Store.single { ID := "R1", CapturedCheckpoints := .mk ["CP1"] })).2.1
        (by decide)).2.2 rfl,
    by decide,
    ((delete_status "R1" Store.init).2.2 (by decide)).2⟩

/-! ## Malformed bodies -/

/-- C9: for every collection, id r, store state and decoding error, PUT
/races/r answers 400 "Incorrect body" and leaves the store as it was; the
outcome is the same whatever the collection would have answered, no lookup
and no upsert being made. -/
theorem malformed_body_rejected {σ : Type} (coll : Collection σ) (r : String)
    (err : String) (db : σ) :
    createOrUpdateRace coll r (.error err) db
      = (db, { status := 400, body := .error "Incorrect body" })
    ∧ ∀ coll2 : Collection σ,
        createOrUpdateRace coll2 r (.error err) db
          = createOrUpdateRace coll r (.error err) db :=
  ⟨rfl, fun _ => rfl⟩

/-! ## Readiness -/

/-- C10: for every value of the flag, GET /healthz answers 200 if the value
is 1 and 503 with no body otherwise; the body of the 200 is the JSON text
`{"status": "OK"}`, which is `{"status":"OK"}` up to the insignificant space
after the colon; the flag starts at 0, where the answer is 503. -/
theorem healthz_status (loaded : Int) :
    (healthz loaded).status = (if loaded = 1 then 200 else 503)
    ∧ (healthz loaded).body
      = (if loaded = 1 then .bytes "\x7b\"status\": \"OK\"\x7d" else .empty)
    ∧ compactJSON "\x7b\"status\": \"OK\"\x7d" = "\x7b\"status\":\"OK\"\x7d"
    ∧ healthy = 0
    ∧ healthz healthy = { status := 503, body := .empty } := by
  refine ⟨?_, ?_, by decide, rfl, by decide⟩
  · unfold healthz
    split <;> rfl
  · unfold healthz
    split <;> rfl

end CapturedCheckpoints
